import Mathlib

/-!
Shallow embedding of the job-lifecycle core of `src/app.py` (Agrihub).

Modelling conventions:
- SQLAlchemy rows become Lean structures; `datetime` columns (`created_at`,
  `date_posted`, `viewed_at`, `requested_at`, `assigned_at`) are opaque to
  every claim and are omitted.
- The database is a `DBState` of per-table lists plus per-table autoincrement
  counters (SQLite integer primary keys).
- `Model.query.get(x)` / `filter_by(...).first()` become `List.find?`;
  a mutation of the fetched (first-matching) row becomes `updateFirst`.
- Routes that can fault return `Except Err DBState`.  A Python request that
  raises before `db.session.commit()` leaves the persistent store unchanged
  (the scoped session is discarded), so a faulting operation returns
  `.error e` and the caller keeps the old state.  `Err.attributeError` models
  the unguarded `AttributeError` raised by assigning an attribute on the
  `None` returned by a failed `Job.query.get`.
- Form fields: a missing or empty text field is Python-falsy.  The `days`
  field of `post_job` and `requested_days` of `request_change` go through
  `int(... ) if truthy`, so they are modelled as `Option Int` where `none`
  is an absent/empty field and `some n` a numeric string with value `n`
  (note `some 0` models the string "0", which is truthy as a string).
-/

structure Job where
  id : Nat
  farmer_id : Nat
  title : String
  work_type : Option String
  days : Int
  stay_info : Option String
  wage : Option String
  location : Option String
  contact : Option String
  status : String
deriving DecidableEq

structure ViewNotification where
  id : Nat
  job_id : Nat
  labour_id : Nat
  seen : Bool
deriving DecidableEq

structure ChangeRequest where
  id : Nat
  job_id : Nat
  labour_id : Nat
  requested_days : Option Int
  requested_wage : Option String
  requested_stay : Option String
  message : String
  status : String
deriving DecidableEq

structure Assignment where
  id : Nat
  job_id : Nat
  labour_id : Nat
  accepted_by_farmer : Bool
  confirmed_by_labour : Bool
deriving DecidableEq

/-- Error kinds surfaced by the faulting routes: `notFound` is Flask's
`get_or_404`, `forbidden` the "Not allowed" rejection in
`confirm_assignment`, and `attributeError` the unguarded crash on a `None`
job lookup (see `decide_change` / `assign_labour`). -/
inductive Err where
  | notFound
  | forbidden
  | attributeError
deriving DecidableEq

structure DBState where
  jobs : List Job
  views : List ViewNotification
  changeRequests : List ChangeRequest
  assignments : List Assignment
  nextJobId : Nat
  nextViewId : Nat
  nextCrId : Nat
  nextAssignId : Nat
deriving DecidableEq

/-- The fresh database, before any request. -/
def DBState.empty : DBState :=
  { jobs := [], views := [], changeRequests := [], assignments := [],
    nextJobId := 1, nextViewId := 1, nextCrId := 1, nextAssignId := 1 }

/-- Mutate the first element satisfying `p` (SQLAlchemy mutates the single
row object returned by `.first()` / `.get`). -/
def updateFirst (p : α → Bool) (f : α → α) : List α → List α
  | [] => []
  | x :: xs => if p x then f x :: xs else x :: updateFirst p f xs

/-- POST branch of `post_job` (src/app.py lines 181-194), acting farmer
already authenticated.  `days = int(request.form.get('days') or 1)`: the
default 1 applies exactly when the field is absent or empty; a numeric
string is taken as-is (including "0" or a negative).  The new Job takes the
column defaults `status='open'`.  Returns the new job id. -/
def post_job (db : DBState) (farmer_id : Nat) (title : String)
    (work_type : Option String) (daysField : Option Int)
    (stay_info wage location contact : Option String) : DBState × Nat :=
  let days : Int :=
    match daysField with
    | none => 1
    | some n => n
  let job : Job :=
    { id := db.nextJobId, farmer_id := farmer_id, title := title,
      work_type := work_type, days := days, stay_info := stay_info,
      wage := wage, location := location, contact := contact,
      status := "open" }
  ({ db with jobs := db.jobs ++ [job], nextJobId := db.nextJobId + 1 },
   db.nextJobId)

/-- `job_view` (src/app.py lines 208-224): `get_or_404` on the job, then, if
the caller is a logged-in labourer, insert a ViewNotification for
(job_id, labour_id) unless one already exists.  `seen` takes its column
default `False`.  Rendering is out of scope. -/
def job_view (db : DBState) (job_id : Nat) (user_id : Nat) (role : String) :
    Except Err DBState :=
  match db.jobs.find? (fun j => j.id == job_id) with
  | none => .error .notFound
  | some _ =>
    if role == "labour" then
      match db.views.find? (fun v => v.job_id == job_id && v.labour_id == user_id) with
      | some _ => .ok db
      | none =>
        .ok { db with
              views := db.views ++
                [{ id := db.nextViewId, job_id := job_id,
                   labour_id := user_id, seen := false }],
              nextViewId := db.nextViewId + 1 }
    else .ok db

/-- `request.form.get(...) if truthy else None` for a text field: the empty
string is stored as NULL. -/
def strOrNone : Option String → Option String
  | none => none
  | some s => if s == "" then none else some s

/-- `request_change` (src/app.py lines 227-248), acting labourer already
authenticated.  No check that the job exists: the ChangeRequest is created
with whatever `job_id` was in the URL.  Returns the new request id. -/
def request_change (db : DBState) (job_id : Nat) (labour_id : Nat)
    (requested_days : Option Int) (requested_wage requested_stay : Option String)
    (message : String) : DBState × Nat :=
  let cr : ChangeRequest :=
    { id := db.nextCrId, job_id := job_id, labour_id := labour_id,
      requested_days := requested_days,
      requested_wage := strOrNone requested_wage,
      requested_stay := strOrNone requested_stay,
      message := message, status := "pending" }
  ({ db with changeRequests := db.changeRequests ++ [cr],
             nextCrId := db.nextCrId + 1 },
   db.nextCrId)

/-- The assignment upsert block shared verbatim by `decide_change`
(src/app.py lines 261-266) and `assign_labour` (lines 290-295): look up the
Assignment for (job_id, labour_id); if absent create it with
accepted_by_farmer=True, else set that flag on the found row.  Returns the
new table and the next autoincrement id. -/
def upsertAssignment (db : DBState) (jid lid : Nat) : List Assignment × Nat :=
  match db.assignments.find? (fun a => a.job_id == jid && a.labour_id == lid) with
  | some _ =>
    (updateFirst (fun a => a.job_id == jid && a.labour_id == lid)
       (fun a => { a with accepted_by_farmer := true }) db.assignments,
     db.nextAssignId)
  | none =>
    (db.assignments ++
       [{ id := db.nextAssignId, job_id := jid, labour_id := lid,
          accepted_by_farmer := true, confirmed_by_labour := false }],
     db.nextAssignId + 1)

/-- The job mutation inside the accept branch of `decide_change`
(src/app.py lines 269-275): each override is applied only when
Python-truthy (`requested_days` an int: non-None and nonzero; the string
overrides: non-None and nonempty), then `job.status = 'assigned'`
unconditionally. -/
def applyOverrides (cr : ChangeRequest) (job : Job) : Job :=
  let j1 :=
    match cr.requested_days with
    | none => job
    | some d => if d == 0 then job else { job with days := d }
  let j2 :=
    match cr.requested_wage with
    | none => j1
    | some w => if w == "" then j1 else { j1 with wage := some w }
  let j3 :=
    match cr.requested_stay with
    | none => j2
    | some st => if st == "" then j2 else { j2 with stay_info := some st }
  { j3 with status := "assigned" }

/-- `decide_change` (src/app.py lines 251-282), acting farmer already
authenticated (the source checks only the role, not ownership, and never
checks `cr.status`).  On `get_or_404` failure: notFound.  On accept: mark
the request accepted, upsert the Assignment for (cr.job_id, cr.labour_id)
with accepted_by_farmer=True, apply the truthy overrides to the job and set
its status to 'assigned', in one commit.  If `Job.query.get(cr.job_id)` is
None the request crashes at `job.status = 'assigned'` before the commit, so
nothing persists: modelled by `.error .attributeError` with the state
unchanged.  Any other decision string takes the reject branch. -/
def decide_change (db : DBState) (change_id : Nat) (decision : String) :
    Except Err DBState :=
  match db.changeRequests.find? (fun c => c.id == change_id) with
  | none => .error .notFound
  | some cr =>
    if decision == "accept" then
      match db.jobs.find? (fun j => j.id == cr.job_id) with
      | none => .error .attributeError
      | some _ =>
        .ok { db with
              changeRequests :=
                updateFirst (fun c => c.id == change_id)
                  (fun c => { c with status := "accepted" }) db.changeRequests,
              assignments := (upsertAssignment db cr.job_id cr.labour_id).1,
              nextAssignId := (upsertAssignment db cr.job_id cr.labour_id).2,
              jobs :=
                updateFirst (fun j => j.id == cr.job_id) (applyOverrides cr) db.jobs }
    else
      .ok { db with
            changeRequests :=
              updateFirst (fun c => c.id == change_id)
                (fun c => { c with status := "rejected" }) db.changeRequests }

/-- `assign_labour` (src/app.py lines 285-300), acting farmer already
authenticated (ownership not checked).  Upserts the Assignment for
(job_id, labour_id) with accepted_by_farmer=True, then sets
`job.status = 'assigned'`; if the job lookup returns None the request
crashes there before the commit, so nothing persists. -/
def assign_labour (db : DBState) (job_id labour_id : Nat) :
    Except Err DBState :=
  match db.jobs.find? (fun j => j.id == job_id) with
  | none => .error .attributeError
  | some _ =>
    .ok { db with
          assignments := (upsertAssignment db job_id labour_id).1,
          nextAssignId := (upsertAssignment db job_id labour_id).2,
          jobs :=
            updateFirst (fun j => j.id == job_id)
              (fun j => { j with status := "assigned" }) db.jobs }

/-- `confirm_assignment` (src/app.py lines 303-319), acting labourer already
authenticated.  `get_or_404` on the assignment; Forbidden when the row's
labour_id differs from the caller; otherwise set confirmed_by_labour=True
and, since that flag was just set, promote the job to 'confirmed' exactly
when accepted_by_farmer holds (`if assign.accepted_by_farmer and
assign.confirmed_by_labour`).  In that case a None job lookup crashes at
`job.status = 'confirmed'` before the commit, so nothing persists. -/
def confirm_assignment (db : DBState) (assign_id : Nat)
    (acting_labour_id : Nat) : Except Err DBState :=
  match db.assignments.find? (fun a => a.id == assign_id) with
  | none => .error .notFound
  | some a =>
    if a.labour_id != acting_labour_id then .error .forbidden
    else
      if a.accepted_by_farmer then
        match db.jobs.find? (fun j => j.id == a.job_id) with
        | none => .error .attributeError
        | some _ =>
          .ok { db with
                assignments :=
                  updateFirst (fun x => x.id == assign_id)
                    (fun x => { x with confirmed_by_labour := true }) db.assignments,
                jobs :=
                  updateFirst (fun j => j.id == a.job_id)
                    (fun j => { j with status := "confirmed" }) db.jobs }
      else
        .ok { db with
              assignments :=
                updateFirst (fun x => x.id == assign_id)
                  (fun x => { x with confirmed_by_labour := true }) db.assignments }

/-- One authenticated mutating request against the core. -/
inductive Op where
  | postJob (farmer_id : Nat) (title : String) (work_type : Option String)
      (daysField : Option Int) (stay_info wage location contact : Option String)
  | jobView (job_id user_id : Nat) (role : String)
  | requestChange (job_id labour_id : Nat) (requested_days : Option Int)
      (requested_wage requested_stay : Option String) (message : String)
  | decideChange (change_id : Nat) (decision : String)
  | assignLabour (job_id labour_id : Nat)
  | confirmAssignment (assign_id acting_labour_id : Nat)

/-- A faulting request persists nothing. -/
def exceptState (db : DBState) : Except Err DBState → DBState
  | .ok db' => db'
  | .error _ => db

/-- The persistent state after one request. -/
def applyOp (db : DBState) : Op → DBState
  | .postJob f t wt df si w l c => (post_job db f t wt df si w l c).1
  | .jobView jid uid r => exceptState db (job_view db jid uid r)
  | .requestChange jid lid rd rw rs m => (request_change db jid lid rd rw rs m).1
  | .decideChange cid d => exceptState db (decide_change db cid d)
  | .assignLabour jid lid => exceptState db (assign_labour db jid lid)
  | .confirmAssignment aid uid => exceptState db (confirm_assignment db aid uid)

/-- States reachable from the fresh database by any request sequence. -/
inductive Reachable : DBState → Prop where
  | init : Reachable DBState.empty
  | step (db : DBState) (op : Op) : Reachable db → Reachable (applyOp db op)

/-! ## List helper lemmas for the row-update primitive -/

theorem mem_updateFirst {α} {p : α → Bool} {f : α → α} {l : List α} {x : α}
    (h : x ∈ updateFirst p f l) : x ∈ l ∨ ∃ y ∈ l, p y = true ∧ x = f y := by
  induction l with
  | nil => simp [updateFirst] at h
  | cons a as ih =>
    by_cases hp : p a
    · simp only [updateFirst, hp, if_true, List.mem_cons] at h
      rcases h with h | h
      · exact Or.inr ⟨a, by simp, hp, h⟩
      · exact Or.inl (List.mem_cons_of_mem _ h)
    · have h2 : x = a ∨ x ∈ updateFirst p f as := by
        simpa [updateFirst, hp, List.mem_cons] using h
      rcases h2 with rfl | h2
      · exact Or.inl (by simp)
      · rcases ih h2 with h' | ⟨y, hy, hpy, hxy⟩
        · exact Or.inl (List.mem_cons_of_mem _ h')
        · exact Or.inr ⟨y, List.mem_cons_of_mem _ hy, hpy, hxy⟩

theorem exists_mem_updateFirst {α} (p : α → Bool) (f : α → α) {l : List α}
    {a : α} (h : a ∈ l) : a ∈ updateFirst p f l ∨ f a ∈ updateFirst p f l := by
  induction l with
  | nil => simp at h
  | cons x xs ih =>
    by_cases hp : p x
    · rcases List.mem_cons.mp h with rfl | h'
      · exact Or.inr (by simp [updateFirst, hp])
      · exact Or.inl (by simp [updateFirst, hp, h'])
    · rcases List.mem_cons.mp h with rfl | h'
      · exact Or.inl (by simp [updateFirst, hp])
      · rcases ih h' with h'' | h''
        · exact Or.inl (by simp [updateFirst, hp, h''])
        · exact Or.inr (by simp [updateFirst, hp, h''])

theorem find?_updateFirst_self {α} {p : α → Bool} {f : α → α} {l : List α}
    {x : α} (h : l.find? p = some x) (hf : p (f x) = true) :
    (updateFirst p f l).find? p = some (f x) := by
  induction l with
  | nil => simp at h
  | cons a as ih =>
    by_cases hp : p a
    · rw [List.find?_cons_of_pos _ hp] at h
      cases h
      simp [updateFirst, hp, List.find?_cons_of_pos _ hf]
    · rw [List.find?_cons_of_neg _ (by simpa using hp)] at h
      simp [updateFirst, hp, List.find?_cons_of_neg _ (by simpa using hp), ih h]

theorem updateFirst_pairwise {α} {R : α → α → Prop} {p : α → Bool} {f : α → α}
    {l : List α} (hR : ∀ x y, R x y → R x (f y)) (hL : ∀ x y, R x y → R (f x) y)
    (h : l.Pairwise R) : (updateFirst p f l).Pairwise R := by
  induction l with
  | nil => simp [updateFirst]
  | cons a as ih =>
    rcases List.pairwise_cons.mp h with ⟨hhead, htail⟩
    by_cases hp : p a
    · simp only [updateFirst, hp, if_true]
      exact List.pairwise_cons.mpr ⟨fun y hy => hL a y (hhead y hy), htail⟩
    · simp only [updateFirst, hp, if_false]
      refine List.pairwise_cons.mpr ⟨fun y hy => ?_, ih htail⟩
      rcases mem_updateFirst hy with h' | ⟨z, hz, _, rfl⟩
      · exact hhead y h'
      · exact hR a z (hhead z hz)

theorem eq_of_pairwise_ne_key {α} (key : α → Nat) {l : List α} {a b : α}
    (h : l.Pairwise fun x y => key x ≠ key y) (ha : a ∈ l) (hb : b ∈ l)
    (hk : key a = key b) : a = b := by
  induction l with
  | nil => simp at ha
  | cons x xs ih =>
    rcases List.pairwise_cons.mp h with ⟨hhead, htail⟩
    rcases List.mem_cons.mp ha with rfl | ha'
    · rcases List.mem_cons.mp hb with rfl | hb'
      · rfl
      · exact absurd hk (hhead b hb')
    · rcases List.mem_cons.mp hb with rfl | hb'
      · exact absurd hk.symm (hhead a ha')
      · exact ih htail ha' hb'

theorem length_filter_le_one {α} {q : α → Bool} {l : List α}
    (h : l.Pairwise fun a b => ¬(q a = true ∧ q b = true)) :
    (l.filter q).length ≤ 1 := by
  induction l with
  | nil => simp
  | cons a as ih =>
    rcases List.pairwise_cons.mp h with ⟨hhead, htail⟩
    by_cases hq : q a
    · have hnil : as.filter q = [] := by
        refine List.filter_eq_nil_iff.mpr fun y hy hqy => ?_
        exact hhead y hy ⟨hq, hqy⟩
      simp [List.filter_cons, hq, hnil]
    · simp only [List.filter_cons, hq, if_false]
      exact ih htail

/-! ## The reachable-state invariant -/

/-- The four job statuses named by the source comment on the `status`
column (src/app.py line 34). -/
def statusOK (j : Job) : Prop :=
  j.status = "open" ∨ j.status = "assigned" ∨ j.status = "confirmed" ∨
    j.status = "closed"

/-- Facts that hold of every reachable persistent state. -/
structure StateInv (db : DBState) : Prop where
  jobs_id_lt : ∀ j ∈ db.jobs, j.id < db.nextJobId
  jobs_id_distinct : db.jobs.Pairwise fun a b => a.id ≠ b.id
  jobs_status : ∀ j ∈ db.jobs, statusOK j
  confirmed_flags : ∀ j ∈ db.jobs, j.status = "confirmed" →
    ∃ a ∈ db.assignments, a.job_id = j.id ∧ a.accepted_by_farmer = true ∧
      a.confirmed_by_labour = true
  accepted_all : ∀ a ∈ db.assignments, a.accepted_by_farmer = true
  assign_pair_unique : db.assignments.Pairwise fun a b =>
    ¬(a.job_id = b.job_id ∧ a.labour_id = b.labour_id)
  view_pair_unique : db.views.Pairwise fun a b =>
    ¬(a.job_id = b.job_id ∧ a.labour_id = b.labour_id)

theorem stateInv_empty : StateInv DBState.empty := by
  refine ⟨?_, ?_, ?_, ?_, ?_, ?_, ?_⟩ <;> simp [DBState.empty]

theorem stateInv_post_job {db : DBState} (h : StateInv db) (fid : Nat) (t : String)
    (wt : Option String) (df : Option Int) (si w lo c : Option String) :
    StateInv (post_job db fid t wt df si w lo c).1 := by
  obtain ⟨h1, h2, h3, h4, h5, h6, h7⟩ := h
  refine ⟨?_, ?_, ?_, ?_, h5, h6, h7⟩
  · intro j hj
    simp only [post_job, List.mem_append, List.mem_singleton] at hj ⊢
    rcases hj with hj | rfl
    · exact Nat.lt_succ_of_lt (h1 j hj)
    · exact Nat.lt_succ_self _
  · simp only [post_job]
    refine List.pairwise_append.mpr ⟨h2, List.pairwise_singleton _ _, ?_⟩
    intro a ha b hb
    simp only [List.mem_singleton] at hb
    subst hb
    exact Nat.ne_of_lt (h1 a ha)
  · intro j hj
    simp only [post_job, List.mem_append, List.mem_singleton] at hj
    rcases hj with hj | rfl
    · exact h3 j hj
    · exact Or.inl rfl
  · intro j hj hconf
    simp only [post_job, List.mem_append, List.mem_singleton] at hj
    rcases hj with hj | rfl
    · exact h4 j hj hconf
    · simp at hconf

theorem stateInv_request_change {db : DBState} (h : StateInv db) (jid lid : Nat)
    (rd : Option Int) (rw rs : Option String) (m : String) :
    StateInv (request_change db jid lid rd rw rs m).1 := by
  obtain ⟨h1, h2, h3, h4, h5, h6, h7⟩ := h
  exact ⟨h1, h2, h3, h4, h5, h6, h7⟩

theorem stateInv_job_view {db : DBState} (h : StateInv db) (jid uid : Nat) (r : String) :
    StateInv (exceptState db (job_view db jid uid r)) := by
  obtain ⟨h1, h2, h3, h4, h5, h6, h7⟩ := h
  unfold job_view
  cases hj : db.jobs.find? (fun j => j.id == jid) with
  | none => exact ⟨h1, h2, h3, h4, h5, h6, h7⟩
  | some j0 =>
    by_cases hr : (r == "labour") = true
    · cases hv : db.views.find? (fun v => v.job_id == jid && v.labour_id == uid) with
      | some v0 => simp only [hr, if_true, exceptState]; exact ⟨h1, h2, h3, h4, h5, h6, h7⟩
      | none =>
        simp only [hr, if_true, exceptState]
        refine ⟨h1, h2, h3, h4, h5, h6, ?_⟩
        refine List.pairwise_append.mpr ⟨h7, List.pairwise_singleton _ _, ?_⟩
        intro a ha b hb
        simp only [List.mem_singleton] at hb
        subst hb
        intro ⟨hjob, hlab⟩
        have := List.find?_eq_none.mp hv a ha
        simp at this
        exact this (by simpa using hjob) (by simpa using hlab)
    · simp only [hr, if_false, exceptState]
      exact ⟨h1, h2, h3, h4, h5, h6, h7⟩

/-! ## Facts about the assignment upsert and the job updates -/

theorem updateFirst_pairwise_key {α} (key : α → Nat) {p : α → Bool}
    {f : α → α} {l : List α} (hk : ∀ x, key (f x) = key x)
    (h : l.Pairwise fun a b => key a ≠ key b) :
    (updateFirst p f l).Pairwise fun a b => key a ≠ key b :=
  updateFirst_pairwise (fun x y hxy => by rw [hk]; exact hxy)
    (fun x y hxy => by rw [hk]; exact hxy) h

theorem updateFirst_pairwise_pair {α} (k1 k2 : α → Nat) {p : α → Bool}
    {f : α → α} {l : List α} (hk1 : ∀ x, k1 (f x) = k1 x)
    (hk2 : ∀ x, k2 (f x) = k2 x)
    (h : l.Pairwise fun a b => ¬(k1 a = k1 b ∧ k2 a = k2 b)) :
    (updateFirst p f l).Pairwise fun a b => ¬(k1 a = k1 b ∧ k2 a = k2 b) :=
  updateFirst_pairwise (fun x y hxy => by rw [hk1, hk2]; exact hxy)
    (fun x y hxy => by rw [hk1, hk2]; exact hxy) h

theorem upsertAssignment_accepted_all {db : DBState} {jid lid : Nat}
    (h5 : ∀ a ∈ db.assignments, a.accepted_by_farmer = true) :
    ∀ a ∈ (upsertAssignment db jid lid).1, a.accepted_by_farmer = true := by
  intro a ha
  unfold upsertAssignment at ha
  cases hf : db.assignments.find? (fun a => a.job_id == jid && a.labour_id == lid) with
  | some a0 =>
    rw [hf] at ha
    rcases mem_updateFirst ha with ha | ⟨y, _, _, rfl⟩
    · exact h5 a ha
    · rfl
  | none =>
    rw [hf] at ha
    rcases List.mem_append.mp ha with ha | ha
    · exact h5 a ha
    · simp only [List.mem_singleton] at ha
      subst ha
      rfl

theorem upsertAssignment_pair_unique {db : DBState} {jid lid : Nat}
    (h6 : db.assignments.Pairwise fun a b =>
      ¬(a.job_id = b.job_id ∧ a.labour_id = b.labour_id)) :
    (upsertAssignment db jid lid).1.Pairwise fun a b =>
      ¬(a.job_id = b.job_id ∧ a.labour_id = b.labour_id) := by
  unfold upsertAssignment
  cases hf : db.assignments.find? (fun a => a.job_id == jid && a.labour_id == lid) with
  | some a0 =>
    exact updateFirst_pairwise_pair Assignment.job_id Assignment.labour_id
      (fun x => rfl) (fun x => rfl) h6
  | none =>
    refine List.pairwise_append.mpr ⟨h6, List.pairwise_singleton _ _, ?_⟩
    intro a ha b hb
    simp only [List.mem_singleton] at hb
    subst hb
    intro ⟨hj, hl⟩
    have := List.find?_eq_none.mp hf a ha
    simp at this
    exact this (by simpa using hj) (by simpa using hl)

theorem upsertAssignment_witness {db : DBState} {jid lid : Nat}
    {a : Assignment} (ha : a ∈ db.assignments)
    (hacc : a.accepted_by_farmer = true) (hconf : a.confirmed_by_labour = true) :
    ∃ a' ∈ (upsertAssignment db jid lid).1, a'.job_id = a.job_id ∧
      a'.accepted_by_farmer = true ∧ a'.confirmed_by_labour = true := by
  unfold upsertAssignment
  cases hf : db.assignments.find? (fun a => a.job_id == jid && a.labour_id == lid) with
  | some a0 =>
    rcases exists_mem_updateFirst
        (fun a => a.job_id == jid && a.labour_id == lid)
        (fun a => { a with accepted_by_farmer := true }) ha with h' | h'
    · exact ⟨a, h', rfl, hacc, hconf⟩
    · exact ⟨_, h', rfl, rfl, hconf⟩
  | none =>
    exact ⟨a, List.mem_append_left _ ha, rfl, hacc, hconf⟩

theorem upsertAssignment_find? (db : DBState) (jid lid : Nat) :
    ∃ a, ((upsertAssignment db jid lid).1.find?
        (fun a => a.job_id == jid && a.labour_id == lid)) = some a ∧
      a.job_id = jid ∧ a.labour_id = lid ∧ a.accepted_by_farmer = true := by
  unfold upsertAssignment
  cases hf : db.assignments.find? (fun a => a.job_id == jid && a.labour_id == lid) with
  | some a0 =>
    have hp := List.find?_some hf
    simp only [Bool.and_eq_true, beq_iff_eq] at hp
    refine ⟨{ a0 with accepted_by_farmer := true }, ?_, hp.1, hp.2, rfl⟩
    exact find?_updateFirst_self hf (by simp [hp.1, hp.2])
  | none =>
    refine ⟨{ id := db.nextAssignId, job_id := jid, labour_id := lid,
              accepted_by_farmer := true, confirmed_by_labour := false },
      ?_, rfl, rfl, rfl⟩
    rw [List.find?_append, hf]
    simp

theorem applyOverrides_frame (cr : ChangeRequest) (j : Job) :
    (applyOverrides cr j).id = j.id ∧
    (applyOverrides cr j).farmer_id = j.farmer_id ∧
    (applyOverrides cr j).title = j.title ∧
    (applyOverrides cr j).work_type = j.work_type ∧
    (applyOverrides cr j).location = j.location ∧
    (applyOverrides cr j).contact = j.contact ∧
    (applyOverrides cr j).status = "assigned" := by
  unfold applyOverrides
  cases cr.requested_days <;> cases cr.requested_wage <;>
    cases cr.requested_stay <;> dsimp only <;> (try split_ifs) <;>
    exact ⟨rfl, rfl, rfl, rfl, rfl, rfl, rfl⟩

theorem stateInv_decide_change {db : DBState} (h : StateInv db) (cid : Nat)
    (d : String) : StateInv (exceptState db (decide_change db cid d)) := by
  obtain ⟨h1, h2, h3, h4, h5, h6, h7⟩ := h
  unfold decide_change
  cases hcr : db.changeRequests.find? (fun c => c.id == cid) with
  | none => exact ⟨h1, h2, h3, h4, h5, h6, h7⟩
  | some cr =>
    by_cases hd : (d == "accept") = true
    · simp only [hd, if_true]
      cases hj : db.jobs.find? (fun j => j.id == cr.job_id) with
      | none => exact ⟨h1, h2, h3, h4, h5, h6, h7⟩
      | some j0 =>
        simp only [exceptState]
        refine ⟨?_, ?_, ?_, ?_, ?_, ?_, h7⟩
        · intro j hjm
          rcases mem_updateFirst hjm with hjm | ⟨y, hy, _, rfl⟩
          · exact h1 j hjm
          · rw [(applyOverrides_frame cr y).1]
            exact h1 y hy
        · exact updateFirst_pairwise_key Job.id
            (fun x => (applyOverrides_frame cr x).1) h2
        · intro j hjm
          rcases mem_updateFirst hjm with hjm | ⟨y, hy, _, rfl⟩
          · exact h3 j hjm
          · exact Or.inr (Or.inl (applyOverrides_frame cr y).2.2.2.2.2.2)
        · intro j hjm hconf
          rcases mem_updateFirst hjm with hjm | ⟨y, hy, _, rfl⟩
          · rcases h4 j hjm hconf with ⟨a, ha, haj, hacc, hcf⟩
            rcases upsertAssignment_witness ha hacc hcf with
              ⟨a', ha', haj', hacc', hcf'⟩
            exact ⟨a', ha', by rw [haj', haj], hacc', hcf'⟩
          · rw [(applyOverrides_frame cr y).2.2.2.2.2.2] at hconf
            simp at hconf
        · exact upsertAssignment_accepted_all h5
        · exact upsertAssignment_pair_unique h6
    · simp only [hd, if_false, exceptState]
      exact ⟨h1, h2, h3, h4, h5, h6, h7⟩

theorem stateInv_assign_labour {db : DBState} (h : StateInv db)
    (jid lid : Nat) : StateInv (exceptState db (assign_labour db jid lid)) := by
  obtain ⟨h1, h2, h3, h4, h5, h6, h7⟩ := h
  unfold assign_labour
  cases hj : db.jobs.find? (fun j => j.id == jid) with
  | none => exact ⟨h1, h2, h3, h4, h5, h6, h7⟩
  | some j0 =>
    simp only [exceptState]
    refine ⟨?_, ?_, ?_, ?_, ?_, ?_, h7⟩
    · intro j hjm
      rcases mem_updateFirst hjm with hjm | ⟨y, hy, _, rfl⟩
      · exact h1 j hjm
      · exact h1 y hy
    · exact updateFirst_pairwise_key Job.id (fun x => rfl) h2
    · intro j hjm
      rcases mem_updateFirst hjm with hjm | ⟨y, hy, _, rfl⟩
      · exact h3 j hjm
      · exact Or.inr (Or.inl rfl)
    · intro j hjm hconf
      rcases mem_updateFirst hjm with hjm | ⟨y, hy, _, rfl⟩
      · rcases h4 j hjm hconf with ⟨a, ha, haj, hacc, hcf⟩
        rcases upsertAssignment_witness ha hacc hcf with
          ⟨a', ha', haj', hacc', hcf'⟩
        exact ⟨a', ha', by rw [haj', haj], hacc', hcf'⟩
      · simp at hconf
    · exact upsertAssignment_accepted_all h5
    · exact upsertAssignment_pair_unique h6

theorem stateInv_confirm {db : DBState} (h : StateInv db) (aid uid : Nat) :
    StateInv (exceptState db (confirm_assignment db aid uid)) := by
  obtain ⟨h1, h2, h3, h4, h5, h6, h7⟩ := h
  unfold confirm_assignment
  cases ha : db.assignments.find? (fun a => a.id == aid) with
  | none => exact ⟨h1, h2, h3, h4, h5, h6, h7⟩
  | some a =>
    by_cases hl : (a.labour_id != uid) = true
    · simp only [hl, if_true]
      exact ⟨h1, h2, h3, h4, h5, h6, h7⟩
    · simp only [hl, if_false]
      have haid : a.id = aid := by
        have := List.find?_some ha
        simpa using this
      by_cases hacc : a.accepted_by_farmer = true
      · simp only [hacc, if_true]
        cases hj : db.jobs.find? (fun j => j.id == a.job_id) with
        | none => exact ⟨h1, h2, h3, h4, h5, h6, h7⟩
        | some j0 =>
          simp only [exceptState]
          refine ⟨?_, ?_, ?_, ?_, ?_, ?_, h7⟩
          · intro j hjm
            rcases mem_updateFirst hjm with hjm | ⟨y, hy, _, rfl⟩
            · exact h1 j hjm
            · exact h1 y hy
          · exact updateFirst_pairwise_key Job.id (fun x => rfl) h2
          · intro j hjm
            rcases mem_updateFirst hjm with hjm | ⟨y, hy, _, rfl⟩
            · exact h3 j hjm
            · exact Or.inr (Or.inr (Or.inl rfl))
          · intro j hjm hconf
            rcases mem_updateFirst hjm with hjm | ⟨y, hy, hpy, rfl⟩
            · rcases h4 j hjm hconf with ⟨a'', ha'', haj'', hacc'', hcf''⟩
              rcases exists_mem_updateFirst
                  (fun x => x.id == aid)
                  (fun x => { x with confirmed_by_labour := true })
                  ha'' with h' | h'
              · exact ⟨a'', h', haj'', hacc'', hcf''⟩
              · exact ⟨_, h', haj'', hacc'', rfl⟩
            · -- the updated job: the updated assignment row is its witness
              have hfind : (updateFirst (fun x => x.id == aid)
                  (fun x => { x with confirmed_by_labour := true })
                  db.assignments).find? (fun x => x.id == aid) =
                  some { a with confirmed_by_labour := true } :=
                find?_updateFirst_self ha (by simpa using haid)
              refine ⟨{ a with confirmed_by_labour := true },
                List.mem_of_find?_eq_some hfind, ?_, hacc, rfl⟩
              have : y.id = a.job_id := by simpa using hpy
              simpa using this.symm
          · intro x hx
            rcases mem_updateFirst hx with hx | ⟨y, hy, _, rfl⟩
            · exact h5 x hx
            · exact h5 y hy
          · exact updateFirst_pairwise_pair Assignment.job_id
              Assignment.labour_id (fun x => rfl) (fun x => rfl) h6
      · simp only [hacc, if_false]
        simp only [exceptState]
        refine ⟨h1, h2, h3, ?_, ?_, ?_, h7⟩
        · intro j hjm hconf
          rcases h4 j hjm hconf with ⟨a'', ha'', haj'', hacc'', hcf''⟩
          rcases exists_mem_updateFirst
              (fun x => x.id == aid)
              (fun x => { x with confirmed_by_labour := true })
              ha'' with h' | h'
          · exact ⟨a'', h', haj'', hacc'', hcf''⟩
          · exact ⟨_, h', haj'', hacc'', rfl⟩
        · intro x hx
          rcases mem_updateFirst hx with hx | ⟨y, hy, _, rfl⟩
          · exact h5 x hx
          · exact h5 y hy
        · exact updateFirst_pairwise_pair Assignment.job_id
            Assignment.labour_id (fun x => rfl) (fun x => rfl) h6

theorem stateInv_applyOp {db : DBState} (h : StateInv db) (op : Op) :
    StateInv (applyOp db op) := by
  cases op with
  | postJob f t wt df si w lo c => exact stateInv_post_job h f t wt df si w lo c
  | jobView jid uid r => exact stateInv_job_view h jid uid r
  | requestChange jid lid rd rw rs m =>
    exact stateInv_request_change h jid lid rd rw rs m
  | decideChange cid d => exact stateInv_decide_change h cid d
  | assignLabour jid lid => exact stateInv_assign_labour h jid lid
  | confirmAssignment aid uid => exact stateInv_confirm h aid uid

theorem reachable_stateInv {db : DBState} (h : Reachable db) : StateInv db := by
  induction h with
  | init => exact stateInv_empty
  | step db op _ ih => exact stateInv_applyOp ih op

theorem mem_updateFirst_of_not_p {α} {p : α → Bool} {f : α → α} {l : List α}
    {c : α} (hc : c ∈ l) (h : p c = false) : c ∈ updateFirst p f l := by
  induction l with
  | nil => simp at hc
  | cons x xs ih =>
    rcases List.mem_cons.mp hc with rfl | hc'
    · simp [updateFirst, h]
    · by_cases hp : p x
      · simp [updateFirst, hp, hc']
      · simp only [updateFirst, hp, if_false]
        exact List.mem_cons_of_mem _ (ih hc')

theorem applyOverrides_days (cr : ChangeRequest) (j : Job) :
    (applyOverrides cr j).days =
      match cr.requested_days with
      | none => j.days
      | some d => if d == 0 then j.days else d := by
  unfold applyOverrides
  cases cr.requested_days <;> cases cr.requested_wage <;>
    cases cr.requested_stay <;> dsimp only <;> (try split_ifs) <;> rfl

theorem applyOverrides_wage (cr : ChangeRequest) (j : Job) :
    (applyOverrides cr j).wage =
      match cr.requested_wage with
      | none => j.wage
      | some w => if w == "" then j.wage else some w := by
  unfold applyOverrides
  cases cr.requested_days <;> cases cr.requested_wage <;>
    cases cr.requested_stay <;> dsimp only <;> (try split_ifs) <;> rfl

theorem applyOverrides_stay (cr : ChangeRequest) (j : Job) :
    (applyOverrides cr j).stay_info =
      match cr.requested_stay with
      | none => j.stay_info
      | some st => if st == "" then j.stay_info else some st := by
  unfold applyOverrides
  cases cr.requested_days <;> cases cr.requested_wage <;>
    cases cr.requested_stay <;> dsimp only <;> (try split_ifs) <;> rfl

/-- After any single request, a job row of the new state is either an
untouched old row, the freshly posted row (status "open", next id), an old
row whose status was just set to "assigned", or — only for a
`confirmAssignment` request — an old row whose status was just set to
"confirmed". -/
theorem applyOp_jobs_cases {db : DBState} (op : Op) {j' : Job}
    (hmem : j' ∈ (applyOp db op).jobs) :
    j' ∈ db.jobs ∨
    (j'.status = "open" ∧ j'.id = db.nextJobId) ∨
    (∃ y ∈ db.jobs, j'.id = y.id ∧ j'.status = "assigned") ∨
    (∃ y ∈ db.jobs, j'.id = y.id ∧ j'.status = "confirmed" ∧
      ∃ aid uid, op = Op.confirmAssignment aid uid) := by
  cases op with
  | postJob f t wt df si w lo c =>
    simp only [applyOp, post_job, List.mem_append, List.mem_singleton] at hmem
    rcases hmem with hmem | rfl
    · exact Or.inl hmem
    · exact Or.inr (Or.inl ⟨rfl, rfl⟩)
  | jobView jid uid r =>
    simp only [applyOp] at hmem
    unfold job_view at hmem
    cases hj : db.jobs.find? (fun j => j.id == jid) with
    | none => rw [hj] at hmem; exact Or.inl hmem
    | some j0 =>
      rw [hj] at hmem
      by_cases hr : (r == "labour") = true
      · simp only [hr, if_true] at hmem
        cases hv : db.views.find?
            (fun v => v.job_id == jid && v.labour_id == uid) with
        | some v0 => rw [hv] at hmem; exact Or.inl hmem
        | none => rw [hv] at hmem; exact Or.inl hmem
      · simp only [hr, if_false] at hmem
        exact Or.inl hmem
  | requestChange jid lid rd rw_ rs m =>
    exact Or.inl hmem
  | decideChange cid d =>
    simp only [applyOp] at hmem
    unfold decide_change at hmem
    cases hcr : db.changeRequests.find? (fun c => c.id == cid) with
    | none => rw [hcr] at hmem; exact Or.inl hmem
    | some cr =>
      rw [hcr] at hmem
      by_cases hd : (d == "accept") = true
      · simp only [hd, if_true] at hmem
        cases hj : db.jobs.find? (fun j => j.id == cr.job_id) with
        | none => rw [hj] at hmem; exact Or.inl hmem
        | some j0 =>
          rw [hj] at hmem
          simp only [exceptState] at hmem
          rcases mem_updateFirst hmem with hmem | ⟨y, hy, _, rfl⟩
          · exact Or.inl hmem
          · exact Or.inr (Or.inr (Or.inl ⟨y, hy, (applyOverrides_frame cr y).1,
              (applyOverrides_frame cr y).2.2.2.2.2.2⟩))
      · simp only [hd, if_false] at hmem
        exact Or.inl hmem
  | assignLabour jid lid =>
    simp only [applyOp] at hmem
    unfold assign_labour at hmem
    cases hj : db.jobs.find? (fun j => j.id == jid) with
    | none => rw [hj] at hmem; exact Or.inl hmem
    | some j0 =>
      rw [hj] at hmem
      simp only [exceptState] at hmem
      rcases mem_updateFirst hmem with hmem | ⟨y, hy, _, rfl⟩
      · exact Or.inl hmem
      · exact Or.inr (Or.inr (Or.inl ⟨y, hy, rfl, rfl⟩))
  | confirmAssignment aid uid =>
    simp only [applyOp] at hmem
    unfold confirm_assignment at hmem
    cases ha : db.assignments.find? (fun a => a.id == aid) with
    | none => rw [ha] at hmem; exact Or.inl hmem
    | some a =>
      rw [ha] at hmem
      by_cases hl : (a.labour_id != uid) = true
      · simp only [hl, if_true] at hmem
        exact Or.inl hmem
      · simp only [hl, if_false] at hmem
        by_cases hacc : a.accepted_by_farmer = true
        · simp only [hacc, if_true] at hmem
          cases hj : db.jobs.find? (fun j => j.id == a.job_id) with
          | none => rw [hj] at hmem; exact Or.inl hmem
          | some j0 =>
            rw [hj] at hmem
            simp only [exceptState] at hmem
            rcases mem_updateFirst hmem with hmem | ⟨y, hy, _, rfl⟩
            · exact Or.inl hmem
            · exact Or.inr (Or.inr (Or.inr ⟨y, hy, rfl, rfl, aid, uid, rfl⟩))
        · simp only [hacc, if_false] at hmem
          exact Or.inl hmem

/-! ## Claims -/

/-- C8 counterexample: posting a job with the form field `days` holding the
numeric string "0" creates a Job whose `days` is 0 — a non-positive input
is NOT coerced to 1, so the created job violates `days >= 1`. -/
theorem post_job_days_not_coerced_cex :
    ((post_job DBState.empty 1 "harvest" none (some 0) none none none
        none).1.jobs.map Job.days = [0]) ∧ ¬(1 ≤ (0 : Int)) := by
  exact ⟨rfl, by decide⟩

/-- C8 (amended): `post_job` appends exactly one new Job, with
status "open" and id `nextJobId`; its `days` is 1 exactly when the form
field was absent or empty, and otherwise is the submitted numeric value
unchanged — zero and negative values included, with no coercion to 1. -/
theorem post_job_spec (db : DBState) (fid : Nat) (t : String)
    (wt : Option String) (df : Option Int) (si w lo c : Option String) :
    ∃ job : Job,
      (post_job db fid t wt df si w lo c).1.jobs = db.jobs ++ [job] ∧
      (post_job db fid t wt df si w lo c).2 = job.id ∧
      job.id = db.nextJobId ∧ job.farmer_id = fid ∧ job.status = "open" ∧
      (df = none → job.days = 1) ∧ (∀ n, df = some n → job.days = n) := by
  refine ⟨{ id := db.nextJobId, farmer_id := fid, title := t, work_type := wt,
            days := match df with | none => 1 | some n => n,
            stay_info := si, wage := w, location := lo, contact := c,
            status := "open" }, rfl, rfl, rfl, rfl, rfl, ?_, ?_⟩
  · intro hdf
    rw [hdf]
  · intro n hdf
    rw [hdf]

/-- C8 witness: the amended statement at a concrete input (absent `days`
field, so the created job has days = 1). -/
theorem post_job_spec_witness :
    ∃ job : Job,
      (post_job DBState.empty 1 "t" none none none none none
          none).1.jobs = DBState.empty.jobs ++ [job] ∧
      (post_job DBState.empty 1 "t" none none none none none none).2 =
        job.id ∧
      job.id = DBState.empty.nextJobId ∧ job.farmer_id = 1 ∧
      job.status = "open" ∧
      ((none : Option Int) = none → job.days = 1) ∧
      (∀ n, (none : Option Int) = some n → job.days = n) :=
  post_job_spec DBState.empty 1 "t" none none none none none none

/-- C10: submitting a change request never checks that the referenced Job
exists (the request is appended unconditionally); accepting a request whose
job is missing — and calling direct assignment with a missing job id —
faults with the unguarded `None` dereference (`attributeError`), not with
`notFound`; and when the referenced Job does exist, both operations
complete without fault. -/
theorem missing_job_dereference (db : DBState) (jid lid : Nat) :
    ((request_change db jid lid none none none "").1.changeRequests =
        db.changeRequests ++
          [{ id := db.nextCrId, job_id := jid, labour_id := lid,
             requested_days := none, requested_wage := none,
             requested_stay := none, message := "", status := "pending" }]) ∧
    (∀ cid cr, db.changeRequests.find? (fun c => c.id == cid) = some cr →
      db.jobs.find? (fun j => j.id == cr.job_id) = none →
      decide_change db cid "accept" = .error .attributeError) ∧
    (db.jobs.find? (fun j => j.id == jid) = none →
      assign_labour db jid lid = .error .attributeError) ∧
    (∀ cid cr job, db.changeRequests.find? (fun c => c.id == cid) = some cr →
      db.jobs.find? (fun j => j.id == cr.job_id) = some job →
      ∃ db', decide_change db cid "accept" = .ok db') ∧
    (∀ job, db.jobs.find? (fun j => j.id == jid) = some job →
      ∃ db', assign_labour db jid lid = .ok db') := by
  refine ⟨rfl, ?_, ?_, ?_, ?_⟩
  · intro cid cr hcr hj
    simp [decide_change, hcr, hj]
  · intro hj
    simp [assign_labour, hj]
  · intro cid cr job hcr hj
    exact ⟨{ db with
        changeRequests := updateFirst (fun c => c.id == cid)
          (fun c => { c with status := "accepted" }) db.changeRequests,
        assignments := (upsertAssignment db cr.job_id cr.labour_id).1,
        nextAssignId := (upsertAssignment db cr.job_id cr.labour_id).2,
        jobs := updateFirst (fun j => j.id == cr.job_id)
          (applyOverrides cr) db.jobs },
      by simp [decide_change, hcr, hj]⟩
  · intro job hj
    exact ⟨{ db with
        assignments := (upsertAssignment db jid lid).1,
        nextAssignId := (upsertAssignment db jid lid).2,
        jobs := updateFirst (fun j => j.id == jid)
          (fun j => { j with status := "assigned" }) db.jobs },
      by simp [assign_labour, hj]⟩

/-- C10 witness: a dangling ChangeRequest (job 99 never posted) is reached
by a single `request_change`, and accepting it faults with the modelled
`AttributeError`, not `notFound`. -/
theorem missing_job_dereference_witness :
    decide_change (request_change DBState.empty 99 2 none none none
        "hi").1 1 "accept" = .error .attributeError :=
  (missing_job_dereference
      (request_change DBState.empty 99 2 none none none "hi").1 99 2).2.1 1
    { id := 1, job_id := 99, labour_id := 2, requested_days := none,
      requested_wage := none, requested_stay := none, message := "hi",
      status := "pending" } rfl rfl

/-- C7: rejecting a pending ChangeRequest sets only that request's status
to "rejected": the Job, Assignment and ViewNotification tables and every id
counter are unchanged, and every other change request is still present
untouched. -/
theorem reject_change_frame (db : DBState) (cid : Nat) (cr : ChangeRequest)
    (hcr : db.changeRequests.find? (fun c => c.id == cid) = some cr)
    (hpend : cr.status = "pending") :
    ∃ db', decide_change db cid "reject" = .ok db' ∧
      db'.jobs = db.jobs ∧ db'.assignments = db.assignments ∧
      db'.views = db.views ∧ db'.nextJobId = db.nextJobId ∧
      db'.nextViewId = db.nextViewId ∧ db'.nextCrId = db.nextCrId ∧
      db'.nextAssignId = db.nextAssignId ∧
      db'.changeRequests.find? (fun c => c.id == cid) =
        some { cr with status := "rejected" } ∧
      (∀ c ∈ db.changeRequests, c.id ≠ cid → c ∈ db'.changeRequests) := by
  have hstep : decide_change db cid "reject" = .ok { db with
      changeRequests := updateFirst (fun c => c.id == cid)
        (fun c => { c with status := "rejected" }) db.changeRequests } := by
    simp [decide_change, hcr]
  refine ⟨_, hstep, rfl, rfl, rfl, rfl, rfl, rfl, rfl, ?_, ?_⟩
  · exact find?_updateFirst_self hcr (by simpa using List.find?_some hcr)
  · intro c hc hne
    exact mem_updateFirst_of_not_p hc (by simpa using hne)

/-- A concrete reachable state: one posted job and two pending change
requests from two labourers. -/
def db7 : DBState :=
  applyOp (applyOp (applyOp DBState.empty
    (.postJob 1 "T" none none none none none none))
    (.requestChange 1 2 (some 5) none none "m"))
    (.requestChange 1 3 none (some "600") none "n")

/-- The first change request row of `db7`. -/
def cr7 : ChangeRequest :=
  { id := 1, job_id := 1, labour_id := 2, requested_days := some 5,
    requested_wage := none, requested_stay := none, message := "m",
    status := "pending" }

/-- C7 witness: rejecting the pending request of a concrete two-request
state leaves jobs, assignments and views untouched. -/
theorem reject_change_frame_witness :
    cr7 ∈ db7.changeRequests ∧ cr7.status = "pending" ∧
    (∃ db', decide_change db7 1 "reject" = .ok db' ∧
      db'.jobs = db7.jobs ∧ db'.assignments = db7.assignments ∧
      db'.views = db7.views ∧ db'.nextJobId = db7.nextJobId ∧
      db'.nextViewId = db7.nextViewId ∧ db'.nextCrId = db7.nextCrId ∧
      db'.nextAssignId = db7.nextAssignId ∧
      db'.changeRequests.find? (fun c => c.id == 1) =
        some { cr7 with status := "rejected" } ∧
      (∀ c ∈ db7.changeRequests, c.id ≠ 1 → c ∈ db'.changeRequests)) :=
  ⟨by decide, rfl, reject_change_frame db7 1 cr7 rfl rfl⟩

/-- A concrete reachable state whose single ChangeRequest is already
resolved: post a job, submit a request, accept it. -/
def db6 : DBState :=
  applyOp (applyOp (applyOp DBState.empty
    (.postJob 1 "T" none none none none none none))
    (.requestChange 1 2 (some 5) none none "m"))
    (.decideChange 1 "accept")

/-- C6 counterexample: `db6`'s request 1 is resolved (status "accepted"),
yet deciding it again does not fail with any error: it succeeds and
overwrites the resolved status to "rejected", so a resolved ChangeRequest
is neither guarded by an InvalidState check nor terminal. -/
theorem redecide_resolved_cex :
    (db6.changeRequests.map ChangeRequest.status = ["accepted"]) ∧
    ∃ db', decide_change db6 1 "reject" = .ok db' ∧
      db'.changeRequests.map ChangeRequest.status = ["rejected"] := by
  exact ⟨by decide, _, rfl, by decide⟩

/-- C6 (amended): deciding fails with NotFound exactly when no request with
the given id exists; the source has no resolved-status guard at all —
deciding any existing request proceeds regardless of its current status, so
re-deciding a resolved request succeeds and mutates it again (resolved is
not terminal). -/
theorem decide_change_resolution (db : DBState) (cid : Nat) :
    (db.changeRequests.find? (fun c => c.id == cid) = none →
      decide_change db cid "accept" = .error .notFound ∧
      decide_change db cid "reject" = .error .notFound) ∧
    (∀ cr, db.changeRequests.find? (fun c => c.id == cid) = some cr →
      ∃ db', decide_change db cid "reject" = .ok db' ∧
        db'.changeRequests.find? (fun c => c.id == cid) =
          some { cr with status := "rejected" }) := by
  constructor
  · intro hnone
    constructor
    · simp [decide_change, hnone]
    · simp [decide_change, hnone]
  · intro cr hcr
    refine ⟨{ db with
        changeRequests := updateFirst (fun c => c.id == cid)
          (fun c => { c with status := "rejected" }) db.changeRequests },
      by simp [decide_change, hcr], ?_⟩
    exact find?_updateFirst_self hcr (by simpa using List.find?_some hcr)

/-- C6 witness: the amended statement applied at the concrete resolved
state `db6`: request 1 exists (already "accepted") and re-deciding it
succeeds, overwriting the status; and the missing id 5 yields NotFound. -/
theorem decide_change_resolution_witness :
    (decide_change db6 5 "accept" = .error .notFound ∧
      decide_change db6 5 "reject" = .error .notFound) ∧
    (∃ db', decide_change db6 1 "reject" = .ok db' ∧
      db'.changeRequests.find? (fun c => c.id == 1) =
        some { id := 1, job_id := 1, labour_id := 2,
               requested_days := some 5, requested_wage := none,
               requested_stay := none, message := "m",
               status := "rejected" }) :=
  ⟨(decide_change_resolution db6 5).1 rfl,
   (decide_change_resolution db6 1).2
     { id := 1, job_id := 1, labour_id := 2, requested_days := some 5,
       requested_wage := none, requested_stay := none, message := "m",
       status := "accepted" } rfl⟩

/-- C5: recording a view is idempotent.  In every reachable state at most
one ViewNotification exists per (job, labourer) pair; viewing a job that
the labourer already viewed is a no-op (the state is returned unchanged);
the first view inserts exactly one new record; and the pair still has at
most one record after any further view. -/
theorem record_view_idempotent {db : DBState} (h : Reachable db)
    (jid uid : Nat) :
    ((db.views.filter
        (fun v => v.job_id == jid && v.labour_id == uid)).length ≤ 1) ∧
    (∀ j ∈ db.jobs, j.id = jid → ∀ v ∈ db.views, v.job_id = jid →
      v.labour_id = uid → job_view db jid uid "labour" = .ok db) ∧
    (∀ j ∈ db.jobs, j.id = jid →
      (∀ v ∈ db.views, ¬(v.job_id = jid ∧ v.labour_id = uid)) →
      job_view db jid uid "labour" = .ok { db with
        views := db.views ++
          [{ id := db.nextViewId, job_id := jid, labour_id := uid,
             seen := false }],
        nextViewId := db.nextViewId + 1 }) ∧
    (((applyOp db (.jobView jid uid "labour")).views.filter
        (fun v => v.job_id == jid && v.labour_id == uid)).length ≤ 1) := by
  have inv := reachable_stateInv h
  have atmost : ∀ d : DBState, StateInv d →
      ((d.views.filter
        (fun v => v.job_id == jid && v.labour_id == uid)).length ≤ 1) := by
    intro d hd
    refine length_filter_le_one (List.Pairwise.imp ?_ hd.view_pair_unique)
    intro a b hab hq
    simp only [Bool.and_eq_true, beq_iff_eq] at hq
    exact hab ⟨hq.1.1.trans hq.2.1.symm, hq.1.2.trans hq.2.2.symm⟩
  have hjob : ∀ j ∈ db.jobs, j.id = jid →
      ∃ j0, db.jobs.find? (fun j => j.id == jid) = some j0 := by
    intro j hj hid
    have : (db.jobs.find? (fun j => j.id == jid)).isSome :=
      List.find?_isSome.mpr ⟨j, hj, by simpa using hid⟩
    exact Option.isSome_iff_exists.mp this
  refine ⟨atmost db inv, ?_, ?_, ?_⟩
  · intro j hj hid v hv hvj hvl
    rcases hjob j hj hid with ⟨j0, hj0⟩
    have hvfind : (db.views.find?
        (fun v => v.job_id == jid && v.labour_id == uid)).isSome :=
      List.find?_isSome.mpr ⟨v, hv, by simp [hvj, hvl]⟩
    rcases Option.isSome_iff_exists.mp hvfind with ⟨v0, hv0⟩
    simp [job_view, hj0, hv0]
  · intro j hj hid hnone
    rcases hjob j hj hid with ⟨j0, hj0⟩
    have hvfind : db.views.find?
        (fun v => v.job_id == jid && v.labour_id == uid) = none := by
      refine List.find?_eq_none.mpr fun v hv => ?_
      have := hnone v hv
      simp only [Bool.and_eq_true, beq_iff_eq]
      intro hq
      exact this ⟨hq.1, hq.2⟩
    simp [job_view, hj0, hvfind]
  · exact atmost _ (reachable_stateInv (Reachable.step db (.jobView jid uid "labour") h))

/-- A concrete reachable state: one job, viewed once by labourer 7. -/
def db5v : DBState :=
  applyOp (applyOp DBState.empty
    (.postJob 1 "T" none none none none none none))
    (.jobView 1 7 "labour")

/-- C5 witness: at the concrete state `db5v` the pair (1,7) has exactly one
record and a repeat view is a no-op returning the state unchanged. -/
theorem record_view_idempotent_witness :
    ((db5v.views.filter
        (fun v => v.job_id == 1 && v.labour_id == 7)).length ≤ 1) ∧
    job_view db5v 1 7 "labour" = .ok db5v :=
  ⟨(record_view_idempotent
      (Reachable.step _ (.jobView 1 7 "labour")
        (Reachable.step _ (.postJob 1 "T" none none none none none none)
          Reachable.init)) 1 7).1,
   (record_view_idempotent
      (Reachable.step _ (.jobView 1 7 "labour")
        (Reachable.step _ (.postJob 1 "T" none none none none none none)
          Reachable.init)) 1 7).2.1
     { id := 1, farmer_id := 1, title := "T", work_type := none, days := 1,
       stay_info := none, wage := none, location := none, contact := none,
       status := "open" } (by decide) rfl
     { id := 1, job_id := 1, labour_id := 7, seen := false } (by decide)
     rfl rfl⟩

/-- C4: in every reachable state — hence after any sequence of direct
assignments and accepted change requests — at most one Assignment row
exists per (job_id, labour_id) pair: both paths upsert the single record
instead of inserting a duplicate. -/
theorem assignment_pair_at_most_one {db : DBState} (h : Reachable db)
    (jid lid : Nat) :
    (db.assignments.filter
      (fun a => a.job_id == jid && a.labour_id == lid)).length ≤ 1 := by
  have inv := reachable_stateInv h
  refine length_filter_le_one (List.Pairwise.imp ?_ inv.assign_pair_unique)
  intro a b hab hq
  simp only [Bool.and_eq_true, beq_iff_eq] at hq
  exact hab ⟨hq.1.1.trans hq.2.1.symm, hq.1.2.trans hq.2.2.symm⟩

/-- A concrete reachable state in which the pair (job 1, labourer 2) went
through both paths: a direct assignment and an accepted change request. -/
def db4a : DBState :=
  applyOp (applyOp (applyOp (applyOp DBState.empty
    (.postJob 1 "T" none none none none none none))
    (.assignLabour 1 2))
    (.requestChange 1 2 (some 5) none none "m"))
    (.decideChange 1 "accept")

/-- C4 witness: after a direct assignment followed by an accepted change
request for the same (1, 2) pair, exactly one Assignment row exists. -/
theorem assignment_pair_at_most_one_witness :
    (db4a.assignments.filter
      (fun a => a.job_id == 1 && a.labour_id == 2)).length ≤ 1 :=
  assignment_pair_at_most_one
    (Reachable.step _ (.decideChange 1 "accept")
      (Reachable.step _ (.requestChange 1 2 (some 5) none none "m")
        (Reachable.step _ (.assignLabour 1 2)
          (Reachable.step _ (.postJob 1 "T" none none none none none none)
            Reachable.init)))) 1 2

/-- C9: in every reachable state every Assignment row has
accepted_by_farmer = true — both creation paths write the flag true, the
upsert sets it true on the existing row, and no operation clears it, so the
column default False is never observable; consequently, whenever confirming
an assignment of the state succeeds, it promotes that assignment's Job to
"confirmed". -/
theorem assignments_always_accepted {db : DBState} (h : Reachable db) :
    (∀ a ∈ db.assignments, a.accepted_by_farmer = true) ∧
    (∀ aid uid a, db.assignments.find? (fun x => x.id == aid) = some a →
      a.labour_id = uid →
      ∀ job, db.jobs.find? (fun j => j.id == a.job_id) = some job →
        ∃ db', confirm_assignment db aid uid = .ok db' ∧
          db'.jobs.find? (fun j => j.id == a.job_id) =
            some { job with status := "confirmed" }) := by
  have inv := reachable_stateInv h
  refine ⟨inv.accepted_all, ?_⟩
  intro aid uid a ha hl job hjob
  have hacc : a.accepted_by_farmer = true :=
    inv.accepted_all a (List.mem_of_find?_eq_some ha)
  have hbne : (a.labour_id != uid) = false := by simp [hl]
  refine ⟨{ db with
      assignments := updateFirst (fun x => x.id == aid)
        (fun x => { x with confirmed_by_labour := true }) db.assignments,
      jobs := updateFirst (fun j => j.id == a.job_id)
        (fun j => { j with status := "confirmed" }) db.jobs },
    by simp [confirm_assignment, ha, hbne, hacc, hjob], ?_⟩
  exact find?_updateFirst_self hjob (by simpa using List.find?_some hjob)

/-- A concrete reachable state: job 1 assigned directly to labourer 2,
awaiting the labourer's confirmation. -/
def db9 : DBState :=
  applyOp (applyOp DBState.empty
    (.postJob 1 "T" none none none none none none))
    (.assignLabour 1 2)

/-- C9 witness: in `db9` every assignment has accepted_by_farmer = true and
confirming assignment 1 as labourer 2 promotes job 1 to "confirmed". -/
theorem assignments_always_accepted_witness :
    (∀ a ∈ db9.assignments, a.accepted_by_farmer = true) ∧
    (∃ db', confirm_assignment db9 1 2 = .ok db' ∧
      db'.jobs.find? (fun j => j.id == 1) =
        some { id := 1, farmer_id := 1, title := "T", work_type := none,
               days := 1, stay_info := none, wage := none, location := none,
               contact := none, status := "confirmed" }) := by
  have h9 : Reachable db9 :=
    Reachable.step _ (.assignLabour 1 2)
      (Reachable.step _ (.postJob 1 "T" none none none none none none)
        Reachable.init)
  refine ⟨(assignments_always_accepted h9).1, ?_⟩
  exact (assignments_always_accepted h9).2 1 2
    { id := 1, job_id := 1, labour_id := 2, accepted_by_farmer := true,
      confirmed_by_labour := false } (by decide) rfl
    { id := 1, farmer_id := 1, title := "T", work_type := none, days := 1,
      stay_info := none, wage := none, location := none, contact := none,
      status := "assigned" } (by decide)

/-- C2: confirming an assignment fails with Forbidden when the row's
labour_id differs from the acting labourer; otherwise it sets
confirmed_by_labour = true and promotes the referenced Job to "confirmed"
exactly when accepted_by_farmer is also true; and no request other than a
confirmAssignment ever produces a confirmed job that was not already
confirmed (confirm is the only transition into "confirmed", requiring both
flags). -/
theorem confirm_assignment_spec (db : DBState) (aid uid : Nat)
    (a : Assignment)
    (ha : db.assignments.find? (fun x => x.id == aid) = some a) :
    (a.labour_id ≠ uid → confirm_assignment db aid uid = .error .forbidden) ∧
    (a.labour_id = uid →
      ∀ job, db.jobs.find? (fun j => j.id == a.job_id) = some job →
        ∃ db', confirm_assignment db aid uid = .ok db' ∧
          db'.assignments.find? (fun x => x.id == aid) =
            some { a with confirmed_by_labour := true } ∧
          db'.jobs.find? (fun j => j.id == a.job_id) =
            some (if a.accepted_by_farmer then
                    { job with status := "confirmed" }
                  else job)) ∧
    (∀ op : Op, (∀ i u, op ≠ Op.confirmAssignment i u) →
      ∀ j' ∈ (applyOp db op).jobs, j'.status = "confirmed" →
        ∃ j ∈ db.jobs, j.id = j'.id ∧ j.status = "confirmed") := by
  refine ⟨?_, ?_, ?_⟩
  · intro hne
    have hbne : (a.labour_id != uid) = true := by simpa using hne
    simp [confirm_assignment, ha, hbne]
  · intro hl job hjob
    have hbne : (a.labour_id != uid) = false := by simp [hl]
    have hfa : (updateFirst (fun x => x.id == aid)
        (fun x => { x with confirmed_by_labour := true })
        db.assignments).find? (fun x => x.id == aid) =
        some { a with confirmed_by_labour := true } :=
      find?_updateFirst_self ha (by simpa using List.find?_some ha)
    by_cases hacc : a.accepted_by_farmer = true
    · refine ⟨{ db with
          assignments := updateFirst (fun x => x.id == aid)
            (fun x => { x with confirmed_by_labour := true }) db.assignments,
          jobs := updateFirst (fun j => j.id == a.job_id)
            (fun j => { j with status := "confirmed" }) db.jobs },
        by simp [confirm_assignment, ha, hbne, hacc, hjob], hfa, ?_⟩
      rw [if_pos hacc]
      exact find?_updateFirst_self hjob (by simpa using List.find?_some hjob)
    · have hacc' : a.accepted_by_farmer = false := by
        simpa using hacc
      refine ⟨{ db with
          assignments := updateFirst (fun x => x.id == aid)
            (fun x => { x with confirmed_by_labour := true })
            db.assignments },
        by simp [confirm_assignment, ha, hbne, hacc'], hfa, ?_⟩
      rw [if_neg (by simp [hacc'])]
      exact hjob
  · intro op hop j' hj' hconf
    rcases applyOp_jobs_cases op hj' with hmem | ⟨hst, _⟩ | ⟨y, _, _, hst⟩ |
        ⟨y, hy, hid, _, i, u, rfl⟩
    · exact ⟨j', hmem, rfl, hconf⟩
    · rw [hconf] at hst
      simp at hst
    · rw [hconf] at hst
      simp at hst
    · exact absurd rfl (hop i u)

/-- A concrete reachable state: job 1 assigned to labourer 2, plus a second
pending assignment question for the Forbidden case. -/
def db2c : DBState := db9

/-- C2 witness: in the concrete state `db2c`, labourer 3 is Forbidden from
confirming assignment 1, and labourer 2's confirmation succeeds, setting
the flag and promoting job 1 to "confirmed" (accepted_by_farmer holds). -/
theorem confirm_assignment_spec_witness :
    (confirm_assignment db2c 1 3 = .error .forbidden) ∧
    (∃ db', confirm_assignment db2c 1 2 = .ok db' ∧
      db'.assignments.find? (fun x => x.id == 1) =
        some { id := 1, job_id := 1, labour_id := 2,
               accepted_by_farmer := true, confirmed_by_labour := true } ∧
      db'.jobs.find? (fun j => j.id == 1) =
        some (if true then
                { id := 1, farmer_id := 1, title := "T", work_type := none,
                  days := 1, stay_info := none, wage := none,
                  location := none, contact := none, status := "confirmed" }
              else
                { id := 1, farmer_id := 1, title := "T", work_type := none,
                  days := 1, stay_info := none, wage := none,
                  location := none, contact := none,
                  status := "assigned" })) := by
  constructor
  · exact (confirm_assignment_spec db2c 1 3
      { id := 1, job_id := 1, labour_id := 2, accepted_by_farmer := true,
        confirmed_by_labour := false } (by decide)).1 (by decide)
  · exact (confirm_assignment_spec db2c 1 2
      { id := 1, job_id := 1, labour_id := 2, accepted_by_farmer := true,
        confirmed_by_labour := false } (by decide)).2.1 rfl
      { id := 1, farmer_id := 1, title := "T", work_type := none, days := 1,
        stay_info := none, wage := none, location := none, contact := none,
        status := "assigned" } (by decide)

/-- C1: accepting a pending ChangeRequest whose Job exists performs, in one
atomic step (a single returned state): the request's status becomes
"accepted"; the Assignment for (job_id, labour_id) is upserted with
accepted_by_farmer = true; exactly the present-and-truthy overrides
(days nonzero, wage/stay nonempty) are written onto the Job while
absent/falsy overrides leave the corresponding field unchanged; the Job's
status becomes "assigned"; every other Job field is untouched, and the view
table is untouched. -/
theorem accept_change_spec (db : DBState) (cid : Nat) (cr : ChangeRequest)
    (job : Job)
    (hcr : db.changeRequests.find? (fun c => c.id == cid) = some cr)
    (hpend : cr.status = "pending")
    (hjob : db.jobs.find? (fun j => j.id == cr.job_id) = some job) :
    ∃ db', decide_change db cid "accept" = .ok db' ∧
      db'.changeRequests.find? (fun c => c.id == cid) =
        some { cr with status := "accepted" } ∧
      (∃ a, db'.assignments.find?
          (fun a => a.job_id == cr.job_id && a.labour_id == cr.labour_id) =
          some a ∧ a.accepted_by_farmer = true) ∧
      (∃ job', db'.jobs.find? (fun j => j.id == cr.job_id) = some job' ∧
        job'.status = "assigned" ∧
        (∀ d, cr.requested_days = some d → d ≠ 0 → job'.days = d) ∧
        ((cr.requested_days = none ∨ cr.requested_days = some 0) →
          job'.days = job.days) ∧
        (∀ w, cr.requested_wage = some w → w ≠ "" → job'.wage = some w) ∧
        ((cr.requested_wage = none ∨ cr.requested_wage = some "") →
          job'.wage = job.wage) ∧
        (∀ st, cr.requested_stay = some st → st ≠ "" →
          job'.stay_info = some st) ∧
        ((cr.requested_stay = none ∨ cr.requested_stay = some "") →
          job'.stay_info = job.stay_info) ∧
        job'.id = job.id ∧ job'.farmer_id = job.farmer_id ∧
        job'.title = job.title ∧ job'.work_type = job.work_type ∧
        job'.location = job.location ∧ job'.contact = job.contact) ∧
      db'.views = db.views := by
  refine ⟨{ db with
      changeRequests := updateFirst (fun c => c.id == cid)
        (fun c => { c with status := "accepted" }) db.changeRequests,
      assignments := (upsertAssignment db cr.job_id cr.labour_id).1,
      nextAssignId := (upsertAssignment db cr.job_id cr.labour_id).2,
      jobs := updateFirst (fun j => j.id == cr.job_id)
        (applyOverrides cr) db.jobs },
    by simp [decide_change, hcr, hjob], ?_, ?_, ?_, rfl⟩
  · exact find?_updateFirst_self hcr (by simpa using List.find?_some hcr)
  · rcases upsertAssignment_find? db cr.job_id cr.labour_id with
      ⟨a, hfa, _, _, hacc⟩
    exact ⟨a, hfa, hacc⟩
  · refine ⟨applyOverrides cr job, ?_, (applyOverrides_frame cr job).2.2.2.2.2.2,
      ?_, ?_, ?_, ?_, ?_, ?_, (applyOverrides_frame cr job).1,
      (applyOverrides_frame cr job).2.1, (applyOverrides_frame cr job).2.2.1,
      (applyOverrides_frame cr job).2.2.2.1,
      (applyOverrides_frame cr job).2.2.2.2.1,
      (applyOverrides_frame cr job).2.2.2.2.2.1⟩
    · refine find?_updateFirst_self hjob ?_
      have hid := (applyOverrides_frame cr job).1
      have := List.find?_some hjob
      simp only at this ⊢
      rw [hid]
      exact this
    · intro d hd h0
      rw [applyOverrides_days, hd]
      simp [h0]
    · intro hd
      rcases hd with hd | hd <;> rw [applyOverrides_days, hd] <;> simp
    · intro w hw h0
      rw [applyOverrides_wage, hw]
      simp [h0]
    · intro hw
      rcases hw with hw | hw <;> rw [applyOverrides_wage, hw] <;> simp
    · intro st hst h0
      rw [applyOverrides_stay, hst]
      simp [h0]
    · intro hst
      rcases hst with hst | hst <;> rw [applyOverrides_stay, hst] <;> simp

/-- A concrete reachable state: job 1 (wage "500") with a pending change
request from labourer 2 asking for 5 days and a stay. -/
def db1c : DBState :=
  applyOp (applyOp DBState.empty
    (.postJob 1 "harvest" none none none (some "500") none none))
    (.requestChange 1 2 (some 5) none (some "tent") "msg")

/-- C1 witness: accepting the concrete pending request of `db1c` succeeds
and marks it accepted (the remaining conjuncts of the specification are
instantiated by the same application). -/
theorem accept_change_spec_witness :
    ∃ db', decide_change db1c 1 "accept" = .ok db' ∧
      db'.changeRequests.find? (fun c => c.id == 1) =
        some { id := 1, job_id := 1, labour_id := 2,
               requested_days := some 5, requested_wage := none,
               requested_stay := some "tent", message := "msg",
               status := "accepted" } := by
  rcases accept_change_spec db1c 1
      { id := 1, job_id := 1, labour_id := 2, requested_days := some 5,
        requested_wage := none, requested_stay := some "tent",
        message := "msg", status := "pending" }
      { id := 1, farmer_id := 1, title := "harvest", work_type := none,
        days := 1, stay_info := none, wage := some "500", location := none,
        contact := none, status := "open" }
      (by decide) rfl (by decide) with ⟨db', h1, h2, _⟩
  exact ⟨db', h1, h2⟩

/-- A concrete reachable state in which job 1 is confirmed (posted, then
directly assigned to labourer 2, then confirmed by labourer 2). -/
def db3c : DBState :=
  applyOp (applyOp (applyOp DBState.empty
    (.postJob 1 "T" none none none none none none))
    (.assignLabour 1 2)) (.confirmAssignment 1 2)

/-- C3 counterexample: from the reachable state `db3c` whose job 1 has
status "confirmed", a later direct assignment of labourer 3 moves the job's
status back to "assigned" — forward monotonicity past "confirmed" fails on
the code. -/
theorem confirmed_job_demoted_cex :
    (db3c.jobs.map Job.status = ["confirmed"]) ∧
    ((applyOp db3c (.assignLabour 1 3)).jobs.map Job.status =
      ["assigned"]) := by
  exact ⟨by decide, by decide⟩

/-- C3 (amended): in every reachable state every job's status lies in
{open, assigned, confirmed, closed}; no request ever moves an existing
job's status back to "open"; and a confirmed job has a governing assignment
with both flags true.  (The claim's stronger statement — that no operation
moves a confirmed job backward — is false: `assign_labour` and the accept
branch of `decide_change` unconditionally write "assigned".) -/
theorem job_status_invariant {db : DBState} (h : Reachable db) :
    (∀ j ∈ db.jobs, j.status = "open" ∨ j.status = "assigned" ∨
      j.status = "confirmed" ∨ j.status = "closed") ∧
    (∀ j ∈ db.jobs, j.status = "confirmed" →
      ∃ a ∈ db.assignments, a.job_id = j.id ∧ a.accepted_by_farmer = true ∧
        a.confirmed_by_labour = true) ∧
    (∀ op : Op, ∀ j ∈ db.jobs, ∀ j' ∈ (applyOp db op).jobs,
      j'.id = j.id → j.status ≠ "open" → j'.status ≠ "open") := by
  have inv := reachable_stateInv h
  refine ⟨inv.jobs_status, inv.confirmed_flags, ?_⟩
  intro op j hj j' hj' hid hopen
  rcases applyOp_jobs_cases op hj' with hmem | ⟨hst, hid'⟩ |
      ⟨y, _, _, hst⟩ | ⟨y, _, _, hst, _⟩
  · have heq : j' = j :=
      eq_of_pairwise_ne_key Job.id inv.jobs_id_distinct hmem hj hid
    rw [heq]
    exact hopen
  · have hlt := inv.jobs_id_lt j hj
    rw [← hid, hid'] at hlt
    exact absurd hlt (lt_irrefl _)
  · rw [hst]
    simp
  · rw [hst]
    simp

/-- C3 witness: the amended invariant at the concrete confirmed state
`db3c`. -/
theorem job_status_invariant_witness :
    (∀ j ∈ db3c.jobs, j.status = "open" ∨ j.status = "assigned" ∨
      j.status = "confirmed" ∨ j.status = "closed") ∧
    (∀ j ∈ db3c.jobs, j.status = "confirmed" →
      ∃ a ∈ db3c.assignments, a.job_id = j.id ∧ a.accepted_by_farmer = true ∧
        a.confirmed_by_labour = true) ∧
    (∀ op : Op, ∀ j ∈ db3c.jobs, ∀ j' ∈ (applyOp db3c op).jobs,
      j'.id = j.id → j.status ≠ "open" → j'.status ≠ "open") :=
  job_status_invariant
    (Reachable.step _ (.confirmAssignment 1 2)
      (Reachable.step _ (.assignLabour 1 2)
        (Reachable.step _ (.postJob 1 "T" none none none none none none)
          Reachable.init)))
